import Mathlib

/-!
Shallow embedding of the Feynman session orchestration core of
`openai-realtime-rs` (crates/core: `topic.rs`, `session_state.rs`).

External capabilities (the SkimMatcherV2 fuzzy matcher from the
`fuzzy_matcher` crate, and the network-bound `Reviewer` oracle) are not
code of this repository; they are modelled as function parameters
bundled in `Oracles`.  `analyze_topic = none` models both a transport
failure of the Reviewer call and a `serde_json::from_str` parse failure
(both propagate identically through `?` in the source).
`analyze_answer = none` models a failed grading call.

Rust's `HashMap<String, SubTopic>` is modelled as an association list
with key-replacing insert; `Vec<String>` buffers are Lean lists with
`push` appending at the end and `pop` removing the last element.

Concurrency primitives (`tokio::sync::Notify`, the mpsc command
channel) are modelled away: emitted commands are collected in a list,
channel sends never fail, and the blocking wait on `answer_buffer`
in `analyze_answer` is modelled by returning `none` (the call is
suspended and does not return while the buffer is empty).
-/

/-- Mirror of `serde_json::Value`, as far as `session_state.rs` inspects it. -/
inductive Json where
  | null : Json
  | bool (b : Bool) : Json
  | num (n : Int) : Json
  | str (s : String) : Json
  | arr (xs : List Json) : Json
  | obj (fields : List (String × Json)) : Json
deriving Repr

/-- Key lookup in a JSON object's field list (serde_json maps preserve the
first binding of a key). -/
def Json.getEntry : List (String × Json) → String → Option Json
  | [], _ => none
  | (k, v) :: rest, key => if k = key then some v else Json.getEntry rest key

/-- Rust `Value::get(key)`: `some` value on an object that has the key, else `none`. -/
def Json.get : Json → String → Option Json
  | Json.obj fields, key => Json.getEntry fields key
  | _, _ => none

/-- Rust `value[key]` (serde_json's `Index`): the value if present, else `Null`. -/
def Json.index (j : Json) (key : String) : Json :=
  (j.get key).getD Json.null

/-- Rust `Value::as_str`. -/
def Json.as_str : Json → Option String
  | Json.str s => some s
  | _ => none

/-- Rust `Value::as_bool`. -/
def Json.as_bool : Json → Option Bool
  | Json.bool b => some b
  | _ => none

/-- Rust `Value::as_array`. -/
def Json.as_array : Json → Option (List Json)
  | Json.arr xs => some xs
  | _ => none

/-- From `topic.rs`: `SubTopic`. -/
structure SubTopic where
  name : String
  has_definition : Bool
  has_mechanism : Bool
  has_example : Bool
deriving Repr, DecidableEq

/-- Rust `SubTopic::new(name)`: all three coverage flags start false. -/
def SubTopic.new (name : String) : SubTopic :=
  { name := name, has_definition := false, has_mechanism := false, has_example := false }

/-- Rust `SubTopic::is_complete`. -/
def SubTopic.is_complete (st : SubTopic) : Bool :=
  st.has_definition && st.has_mechanism && st.has_example

/-- From `topic.rs`: `SubTopicList` (the `SkimMatcherV2` matcher field is modelled
as an `Oracles` parameter, see module comment). -/
structure SubTopicList where
  subtopics : List SubTopic
deriving Repr, DecidableEq

/-- Rust `SubTopicList::new(subtopics)`: stores the vector unchanged; there is no
validation of any kind in the source. -/
def SubTopicList.new (subtopics : List SubTopic) : SubTopicList :=
  { subtopics := subtopics }

/-- Rust `SubTopicList::find_mentions(segment, threshold)`: keeps, in catalog
order, the subtopics whose lowercased name scores strictly above
`threshold` against the lowercased segment (`unwrap_or(0) > threshold`). -/
def SubTopicList.find_mentions (matcher : String → String → Option Int)
    (l : SubTopicList) (segment : String) (threshold : Int) : List SubTopic :=
  let segment_lower := segment.toLower
  l.subtopics.filter fun subtopic =>
    ((matcher segment_lower subtopic.name.toLower).getD 0) > threshold

/-- The spec's reading of `find_mentions` ("at or above the threshold"),
kept for comparison with the source's strict inequality. -/
def specFindMentions (matcher : String → String → Option Int)
    (l : SubTopicList) (segment : String) (threshold : Int) : List SubTopic :=
  let segment_lower := segment.toLower
  l.subtopics.filter fun subtopic =>
    ((matcher segment_lower subtopic.name.toLower).getD 0) ≥ threshold

/-- From `lib.rs`: the `Command` enum emitted to the runtime. -/
inductive Command where
  | SpeakText (text : String) : Command
  | SessionComplete (message : String) : Command
deriving Repr, DecidableEq

/-- From `session_state.rs`: `QuestionForSubtopic`. -/
structure QuestionForSubtopic where
  subtopic : String
  field : String
  question : String
deriving Repr, DecidableEq

/-- From `session_state.rs`: `FeynmanState`. -/
inductive FeynmanState where
  | Listening : FeynmanState
  | Analyzing : FeynmanState
  | AnalyzingAnswers : FeynmanState
deriving Repr, DecidableEq

/-- Association-list model of `HashMap<String, SubTopic>`: key-replacing
insert, keeping the first occurrence's position. -/
def mapInsert : List (String × SubTopic) → String → SubTopic → List (String × SubTopic)
  | [], k, v => [(k, v)]
  | (k0, v0) :: rest, k, v =>
      if k0 = k then (k, v) :: rest else (k0, v0) :: mapInsert rest k v

/-- Rust `HashMap::get`. -/
def mapLookup : List (String × SubTopic) → String → Option SubTopic
  | [], _ => none
  | (k0, v0) :: rest, k => if k0 = k then some v0 else mapLookup rest k

/-- Rust `HashMap::remove`, dropping every binding of the key. -/
def mapRemove (m : List (String × SubTopic)) (k : String) : List (String × SubTopic) :=
  m.filter fun p => p.1 ≠ k

/-- Rust `HashMap::contains_key`. -/
def mapContains (m : List (String × SubTopic)) (k : String) : Bool :=
  (mapLookup m k).isSome

/-- Rust `Vec::join(" ")`. -/
def joinSpace : List String → String
  | [] => ""
  | [s] => s
  | s :: rest => s ++ " " ++ joinSpace rest

/-- Rust `Vec::pop`: the last element and the remaining buffer. -/
def popBuffer (l : List String) : Option (String × List String) :=
  match l.getLast? with
  | none => none
  | some x => some (x, l.dropLast)

/-- From `session_state.rs`: `FeynmanSession` (the `answer_notify` concurrency
primitive is modelled away, see module comment). -/
structure FeynmanSession where
  state : FeynmanState
  in_between_buffer : List String
  answer_buffer : List String
  temp_context_buffer : List String
  question_queue : List QuestionForSubtopic
  current_question_idx : Nat
  pending_segments : List String
  pending_no_subtopic_segment : Bool
  subtopic_list : SubTopicList
  covered_subtopics : List (String × SubTopic)
  question_subtopics : List String
  incomplete_subtopics : List (String × SubTopic)
deriving Repr, DecidableEq

/-- Rust `FeynmanSession::new`. -/
def FeynmanSession.new (subtopic_list : SubTopicList) : FeynmanSession :=
  { state := FeynmanState.Listening
    in_between_buffer := []
    answer_buffer := []
    temp_context_buffer := []
    question_queue := []
    current_question_idx := 0
    pending_segments := []
    pending_no_subtopic_segment := false
    subtopic_list := subtopic_list
    covered_subtopics := []
    question_subtopics := []
    incomplete_subtopics := [] }

/-- The external capabilities the session consumes (see module comment). -/
structure Oracles where
  fuzzy_match : String → String → Option Int
  analyze_topic : String → List SubTopic → Option Json
  analyze_answer : String → String → Option Bool

/-- Rust `FeynmanSession::add_to_incomplete_subtopics`. -/
def FeynmanSession.add_to_incomplete_subtopics (session : FeynmanSession)
    (name : String) (has_def has_mech has_ex : Bool) : FeynmanSession :=
  { session with
      incomplete_subtopics :=
        mapInsert session.incomplete_subtopics name
          { name := name, has_definition := has_def,
            has_mechanism := has_mech, has_example := has_ex } }

/-- The `questions` sub-array parsing of `process_analyzing` (lines 191-209):
each entry's `field`/`question` strings default to `""` when missing. -/
def parseQuestions (name : String) (item : Json) : List QuestionForSubtopic :=
  match (item.index "questions").as_array with
  | some qs =>
      qs.map fun q =>
        { subtopic := name
          field := ((q.get "field").bind Json.as_str).getD ""
          question := ((q.get "question").bind Json.as_str).getD "" }
  | none => []

/-- The verdict loop of `process_analyzing` (lines 161-211): walks the parsed
array, records each verdict in the ledgers and accumulates questions.
A missing `subtopic` string aborts with an error (`Bool` = success flag),
keeping the mutations already applied, exactly as `?` does in the source. -/
def processVerdicts (session : FeynmanSession) (acc : List QuestionForSubtopic) :
    List Json → FeynmanSession × List QuestionForSubtopic × Bool
  | [] => (session, acc, true)
  | item :: rest =>
      match (item.index "subtopic").as_str with
      | none => (session, acc, false)
      | some name =>
          let has_def := ((item.index "has_definition").as_bool).getD false
          let has_mech := ((item.index "has_mechanism").as_bool).getD false
          let has_ex := ((item.index "has_example").as_bool).getD false
          if has_def && has_mech && has_ex then
            processVerdicts
              { session with
                  covered_subtopics :=
                    mapInsert session.covered_subtopics name
                      { name := name, has_definition := has_def,
                        has_mechanism := has_mech, has_example := has_ex } }
              acc rest
          else
            processVerdicts
              (session.add_to_incomplete_subtopics name has_def has_mech has_ex)
              (acc ++ parseQuestions name item) rest

/-- Rust `FeynmanSession::process_analyzing`.  The Rust recursion consumes one
element of `in_between_buffer` per recursive call; the `fuel` parameter makes
that recursion structural, and `process_segment` supplies
`in_between_buffer.length + 1`, which is always sufficient.  Result:
(session after all mutations, commands sent, success flag) — on failure the
mutations applied before the failing step are kept, as with `&mut self`. -/
def FeynmanSession.process_analyzing (o : Oracles) :
    Nat → FeynmanSession → String → FeynmanSession × List Command × Bool
  | 0, session, _ => (session, [], false)
  | fuel + 1, session, segment =>
      let detected_subtopics := session.subtopic_list.find_mentions o.fuzzy_match segment 70
      if detected_subtopics.isEmpty then
        let session1 :=
          { session with
              pending_segments := session.pending_segments ++ [segment]
              pending_no_subtopic_segment := true }
        match popBuffer session1.in_between_buffer with
        | some (next_segment, rest) =>
            FeynmanSession.process_analyzing o fuel
              { session1 with in_between_buffer := rest } next_segment
        | none => ({ session1 with state := FeynmanState.Listening }, [], true)
      else
        let combined0 := joinSpace session.pending_segments
        let session1 :=
          { session with
              pending_segments := []
              pending_no_subtopic_segment := false }
        let combined := if combined0.isEmpty then segment else combined0 ++ " " ++ segment
        match o.analyze_topic combined detected_subtopics with
        | none => (session1, [], false)
        | some analysis =>
            let items := (analysis.as_array).getD []
            let r := processVerdicts session1 [] items
            let session2 := r.1
            let question_queue := r.2.1
            if r.2.2 = false then (session2, [], false)
            else if question_queue.isEmpty then
              match popBuffer session2.in_between_buffer with
              | some (next_segment, rest) =>
                  FeynmanSession.process_analyzing o fuel
                    { session2 with in_between_buffer := rest } next_segment
              | none => ({ session2 with state := FeynmanState.Listening }, [], true)
            else
              let session3 :=
                { session2 with
                    question_queue := question_queue
                    question_subtopics := []
                    current_question_idx := 0 }
              match session3.question_queue.head? with
              | some first_question =>
                  ({ session3 with state := FeynmanState.AnalyzingAnswers },
                   [Command.SpeakText first_question.question], true)
              | none => ({ session3 with state := FeynmanState.Listening }, [], true)

/-- Rust `FeynmanSession::process_segment`: the single entry point routing a
transcribed segment by phase.  In the `Listening` arm a failure of
`process_analyzing` is caught and the state reset to `Listening`
(source lines 89-97). -/
def FeynmanSession.process_segment (o : Oracles) (session : FeynmanSession)
    (segment : String) : FeynmanSession × List Command :=
  match session.state with
  | FeynmanState.Listening =>
      let combined :=
        if session.temp_context_buffer.isEmpty then segment
        else joinSpace session.temp_context_buffer ++ " " ++ segment
      let session1 :=
        if session.temp_context_buffer.isEmpty then session
        else { session with temp_context_buffer := [] }
      let session2 := { session1 with state := FeynmanState.Analyzing }
      let r := FeynmanSession.process_analyzing o
        (session2.in_between_buffer.length + 1) session2 combined
      if r.2.2 then (r.1, r.2.1)
      else ({ r.1 with state := FeynmanState.Listening }, r.2.1)
  | FeynmanState.Analyzing =>
      ({ session with in_between_buffer := session.in_between_buffer ++ [segment] }, [])
  | FeynmanState.AnalyzingAnswers =>
      ({ session with answer_buffer := session.answer_buffer ++ [segment] }, [])

/-- The `match field` block of `update_subtopic_field` (lines 356-361):
sets the named flag; an unrecognized field name leaves the entry unchanged. -/
def setSubtopicField (subtopic : SubTopic) (field : String) (value : Bool) : SubTopic :=
  match field with
  | "has_definition" => { subtopic with has_definition := value }
  | "has_mechanism" => { subtopic with has_mechanism := value }
  | "has_example" => { subtopic with has_example := value }
  | _ => subtopic

/-- Rust `FeynmanSession::update_subtopic_field`: `entry(..).or_insert_with(..)`
creates an all-false entry in `incomplete_subtopics` when the name is absent
(even when it sits in `covered_subtopics`), then applies `setSubtopicField`. -/
def FeynmanSession.update_subtopic_field (session : FeynmanSession)
    (subtopic_name field : String) (value : Bool) : FeynmanSession :=
  let subtopic0 :=
    match mapLookup session.incomplete_subtopics subtopic_name with
    | some st => st
    | none => SubTopic.new subtopic_name
  { session with
      incomplete_subtopics :=
        mapInsert session.incomplete_subtopics subtopic_name
          (setSubtopicField subtopic0 field value) }

/-- Rust `FeynmanSession::is_subtopic_complete`: looks only in `incomplete_subtopics`. -/
def FeynmanSession.is_subtopic_complete (session : FeynmanSession)
    (subtopic_name : String) : Bool :=
  match mapLookup session.incomplete_subtopics subtopic_name with
  | some subtopic => subtopic.has_definition && subtopic.has_mechanism && subtopic.has_example
  | none => false

/-- The `if is_correct` block of `analyze_answer` (lines 294-307): a correct
answer confirms the question's field and migrates the subtopic from
`incomplete_subtopics` to `covered_subtopics` when it is now complete; an
incorrect answer leaves the session as is. -/
def FeynmanSession.apply_grading (session : FeynmanSession)
    (current_question : QuestionForSubtopic) (is_correct : Bool) : FeynmanSession :=
  if is_correct then
    let s1 := session.update_subtopic_field current_question.subtopic
      current_question.field true
    if s1.is_subtopic_complete current_question.subtopic then
      match mapLookup s1.incomplete_subtopics current_question.subtopic with
      | some complete_subtopic =>
          { s1 with
              incomplete_subtopics :=
                mapRemove s1.incomplete_subtopics current_question.subtopic
              covered_subtopics :=
                mapInsert s1.covered_subtopics current_question.subtopic
                  complete_subtopic }
      | none => s1
    else s1
  else session

/-- The fixed message sent as `Command::SessionComplete` when the question
queue has been exhausted (line 325 of `session_state.rs`). -/
def completionMessage : String :=
  "Great, you\x27ve answered all the questions for now. Let\x27s continue."

/-- Rust `FeynmanSession::analyze_answer`.  `none` models the call blocking
forever on the empty-`answer_buffer` wait (it checks the cursor first, as the
source does); otherwise the result is (session, commands, success flag),
with success `false` when there is no current question or the grading call
fails — in both error cases the session is returned untouched, because the
source returns `Err` before any mutation. -/
def FeynmanSession.analyze_answer (o : Oracles) (session : FeynmanSession) :
    Option (FeynmanSession × List Command × Bool) :=
  if h : session.current_question_idx < session.question_queue.length then
    let current_question := session.question_queue.get ⟨session.current_question_idx, h⟩
    if session.answer_buffer.isEmpty then
      none
    else
      let combined_answer := joinSpace session.answer_buffer
      match o.analyze_answer current_question.question combined_answer with
      | none => some (session, [], false)
      | some is_correct =>
          let session1 := session.apply_grading current_question is_correct
          let session2 :=
            { session1 with
                answer_buffer := []
                current_question_idx := session1.current_question_idx + 1 }
          if h2 : session2.current_question_idx < session2.question_queue.length then
            let next_question := session2.question_queue.get
              ⟨session2.current_question_idx, h2⟩
            some (session2, [Command.SpeakText next_question.question], true)
          else
            some ({ session2 with
                      question_queue := []
                      current_question_idx := 0
                      state := FeynmanState.Listening },
                  [Command.SessionComplete completionMessage],
                  true)
  else
    some (session, [], false)

/-- One round of QuestionDelivery as driven by the runtime: an answer
segment arrives (appended to `answer_buffer`, as `process_segment` does in
the `AnalyzingAnswers` phase) and `analyze_answer` runs once.  With the
buffer non-empty the call never blocks, so the `none` branch is vacuous. -/
def deliver_round (o : Oracles) (ans : String) (s : FeynmanSession) : FeynmanSession :=
  match FeynmanSession.analyze_answer o
      { s with answer_buffer := s.answer_buffer ++ [ans] } with
  | some r => r.1
  | none => s

/-- Runs `n` consecutive QuestionDelivery rounds. -/
def deliver_rounds (o : Oracles) (ans : String) : Nat → FeynmanSession → FeynmanSession
  | 0, s => s
  | n + 1, s => deliver_rounds o ans n (deliver_round o ans s)

/-- A catalog entry used by the concrete scenarios below. -/
def stT : SubTopic := SubTopic.new "T"

/-- A verdict object in the shape `analyze_topic` returns, with all three
coverage booleans equal to `b` and no `questions` array. -/
def verdictItem (name : String) (b : Bool) : Json :=
  Json.obj [("subtopic", Json.str name), ("has_definition", Json.bool b),
            ("has_mechanism", Json.bool b), ("has_example", Json.bool b)]

/-- Oracle whose matcher always scores 100 and whose analysis judges the
subtopic "X" first incomplete and then complete, within one response. -/
def oracleC1 : Oracles :=
  { fuzzy_match := fun _ _ => some 100
    analyze_topic := fun _ _ =>
      some (Json.arr [verdictItem "X" false, verdictItem "X" true])
    analyze_answer := fun _ _ => some true }

/-- A fresh session over the one-entry catalog. -/
def sessionC1 : FeynmanSession := FeynmanSession.new (SubTopicList.new [stT])

/-- Oracle whose matcher always scores 100 but whose topic analysis always
fails (transport or parse failure). -/
def oracleFailTopic : Oracles :=
  { fuzzy_match := fun _ _ => some 100
    analyze_topic := fun _ _ => none
    analyze_answer := fun _ _ => none }

/-- A listening session that already holds one unattributed pending segment. -/
def sessionC2 : FeynmanSession :=
  { FeynmanSession.new (SubTopicList.new [stT]) with pending_segments := ["s1"] }

/-- Oracle that grades every answer correct. -/
def oracleTrue : Oracles :=
  { fuzzy_match := fun _ _ => none
    analyze_topic := fun _ _ => none
    analyze_answer := fun _ _ => some true }

/-- Oracle that grades every answer incorrect. -/
def oracleFalse : Oracles :=
  { fuzzy_match := fun _ _ => none
    analyze_topic := fun _ _ => none
    analyze_answer := fun _ _ => some false }

/-- Oracle whose grading call always fails. -/
def oracleFailGrade : Oracles :=
  { fuzzy_match := fun _ _ => none
    analyze_topic := fun _ _ => none
    analyze_answer := fun _ _ => none }

/-- A session awaiting the answer to the last (single) queued question, with
a backlog segment sitting in `in_between_buffer`. -/
def sessionC3 : FeynmanSession :=
  { FeynmanSession.new (SubTopicList.new [stT]) with
      state := FeynmanState.AnalyzingAnswers
      question_queue := [{ subtopic := "T", field := "has_definition",
                           question := "What is T?" }]
      current_question_idx := 0
      in_between_buffer := ["x"]
      answer_buffer := ["ans"]
      incomplete_subtopics := [("T", SubTopic.new "T")] }

/-- A session awaiting the answer to the first of two queued questions. -/
def sessionC4 : FeynmanSession :=
  { FeynmanSession.new (SubTopicList.new [stT]) with
      state := FeynmanState.AnalyzingAnswers
      question_queue := [{ subtopic := "T", field := "has_definition",
                           question := "What is T?" },
                         { subtopic := "T", field := "has_mechanism",
                           question := "How does T work?" }]
      current_question_idx := 0
      answer_buffer := ["a"]
      incomplete_subtopics := [("T", SubTopic.new "T")] }

/-- A session in the `Analyzing` phase. -/
def sessionAnalyzing : FeynmanSession :=
  { FeynmanSession.new (SubTopicList.new [stT]) with state := FeynmanState.Analyzing }

/-- A matcher that scores every pair of strings exactly 70. -/
def matcherConst70 : String → String → Option Int := fun _ _ => some 70

/-- Two catalog entries whose names differ only by case. -/
def stA : SubTopic := SubTopic.new "Tcp"

/-- See `stA`. -/
def stB : SubTopic := SubTopic.new "tCP"

/-- A subtopic name duplicated in a catalog below. -/
def stDup : SubTopic := SubTopic.new "TCP"

/-- A session awaiting the answer to a question that references the subtopic
"X", which is absent from both coverage maps. -/
def sessionC9 : FeynmanSession :=
  { FeynmanSession.new (SubTopicList.new [stT]) with
      state := FeynmanState.AnalyzingAnswers
      question_queue := [{ subtopic := "X", field := "has_definition",
                           question := "What is X?" }]
      current_question_idx := 0
      answer_buffer := ["a"] }

/-! ## Helper lemmas -/

theorem mapLookup_insert (m : List (String × SubTopic)) (k : String) (v : SubTopic) :
    mapLookup (mapInsert m k v) k = some v := by
  induction m with
  | nil => simp [mapInsert, mapLookup]
  | cons p rest ih =>
      obtain ⟨k0, v0⟩ := p
      by_cases h : k0 = k
      · simp [mapInsert, mapLookup, h]
      · simp [mapInsert, mapLookup, h, ih]

theorem mapContains_insert (m : List (String × SubTopic)) (k : String) (v : SubTopic) :
    mapContains (mapInsert m k v) k = true := by
  simp [mapContains, mapLookup_insert]

theorem apply_grading_state (s : FeynmanSession) (q : QuestionForSubtopic) (b : Bool) :
    (s.apply_grading q b).state = s.state := by
  unfold FeynmanSession.apply_grading FeynmanSession.update_subtopic_field
  dsimp only
  repeat' split
  all_goals rfl

theorem apply_grading_question_queue (s : FeynmanSession) (q : QuestionForSubtopic) (b : Bool) :
    (s.apply_grading q b).question_queue = s.question_queue := by
  unfold FeynmanSession.apply_grading FeynmanSession.update_subtopic_field
  dsimp only
  repeat' split
  all_goals rfl

theorem apply_grading_current_question_idx (s : FeynmanSession) (q : QuestionForSubtopic) (b : Bool) :
    (s.apply_grading q b).current_question_idx = s.current_question_idx := by
  unfold FeynmanSession.apply_grading FeynmanSession.update_subtopic_field
  dsimp only
  repeat' split
  all_goals rfl

theorem apply_grading_answer_buffer (s : FeynmanSession) (q : QuestionForSubtopic) (b : Bool) :
    (s.apply_grading q b).answer_buffer = s.answer_buffer := by
  unfold FeynmanSession.apply_grading FeynmanSession.update_subtopic_field
  dsimp only
  repeat' split
  all_goals rfl

theorem apply_grading_temp_context_buffer (s : FeynmanSession) (q : QuestionForSubtopic) (b : Bool) :
    (s.apply_grading q b).temp_context_buffer = s.temp_context_buffer := by
  unfold FeynmanSession.apply_grading FeynmanSession.update_subtopic_field
  dsimp only
  repeat' split
  all_goals rfl

theorem apply_grading_in_between_buffer (s : FeynmanSession) (q : QuestionForSubtopic) (b : Bool) :
    (s.apply_grading q b).in_between_buffer = s.in_between_buffer := by
  unfold FeynmanSession.apply_grading FeynmanSession.update_subtopic_field
  dsimp only
  repeat' split
  all_goals rfl

/-! ## Claim theorems -/

/-- C10: invoking `analyze_answer` with the cursor at or past the end of the
question queue returns an error immediately, leaving the whole session state
untouched and emitting no command. -/
theorem c10_no_current_question_error (o : Oracles) (s : FeynmanSession)
    (h : s.question_queue.length ≤ s.current_question_idx) :
    FeynmanSession.analyze_answer o s = some (s, [], false) := by
  unfold FeynmanSession.analyze_answer
  rw [dif_neg (by omega)]

/-- Witness for C10 at a session whose queue is empty. -/
theorem c10_witness :
    (FeynmanSession.new (SubTopicList.new [stT])).question_queue.length ≤
      (FeynmanSession.new (SubTopicList.new [stT])).current_question_idx ∧
    FeynmanSession.analyze_answer oracleTrue (FeynmanSession.new (SubTopicList.new [stT])) =
      some (FeynmanSession.new (SubTopicList.new [stT]), [], false) :=
  ⟨by decide,
   c10_no_current_question_error oracleTrue (FeynmanSession.new (SubTopicList.new [stT]))
     (by decide)⟩

/-- C4 (amended): when the grading call fails, `analyze_answer` returns the
error immediately: the field is not confirmed, the cursor does not advance,
and the answer buffer is kept, so the session is returned unchanged. -/
theorem c4_grading_failure_errors (o : Oracles) (s : FeynmanSession)
    (h : s.current_question_idx < s.question_queue.length)
    (hbuf : s.answer_buffer.isEmpty = false)
    (hfail : o.analyze_answer (s.question_queue.get ⟨s.current_question_idx, h⟩).question
        (joinSpace s.answer_buffer) = none) :
    FeynmanSession.analyze_answer o s = some (s, [], false) := by
  unfold FeynmanSession.analyze_answer
  rw [dif_pos h]
  dsimp only
  rw [hbuf]
  simp only [Bool.false_eq_true, if_false]
  rw [hfail]

/-- Witness for C4's amended theorem. -/
theorem c4_witness :
    sessionC4.current_question_idx < sessionC4.question_queue.length ∧
    FeynmanSession.analyze_answer oracleFailGrade sessionC4 = some (sessionC4, [], false) :=
  ⟨by decide, c4_grading_failure_errors oracleFailGrade sessionC4 (by decide) (by decide) rfl⟩

/-- C4 counterexample: with a failing grader the cursor does not advance past
the current question (the session comes back identical), contradicting the
claim that a grading failure is treated as incorrect and still advances. -/
theorem c4_counterexample :
    FeynmanSession.analyze_answer oracleFailGrade sessionC4 = some (sessionC4, [], false) ∧
    (FeynmanSession.analyze_answer oracleFailGrade sessionC4).map
        (fun r => r.1.current_question_idx) = some sessionC4.current_question_idx := by
  decide

/-- C5: a segment arriving while the phase is not `Listening` is appended to
exactly one buffer — `in_between_buffer` in `Analyzing`, `answer_buffer` in
`AnalyzingAnswers` — with the other buffer untouched, and the call returns
immediately with no command; `process_segment` is total over the phases. -/
theorem c5_segment_routed_to_unique_buffer (o : Oracles) (s : FeynmanSession) (seg : String)
    (h : s.state ≠ FeynmanState.Listening) :
    (s.state = FeynmanState.Analyzing →
        (FeynmanSession.process_segment o s seg).1.in_between_buffer =
          s.in_between_buffer ++ [seg] ∧
        (FeynmanSession.process_segment o s seg).1.answer_buffer = s.answer_buffer) ∧
    (s.state = FeynmanState.AnalyzingAnswers →
        (FeynmanSession.process_segment o s seg).1.answer_buffer =
          s.answer_buffer ++ [seg] ∧
        (FeynmanSession.process_segment o s seg).1.in_between_buffer =
          s.in_between_buffer) ∧
    (FeynmanSession.process_segment o s seg).2 = [] := by
  obtain ⟨st, ib, ab, tc, qq, idx, ps, pf, sl, cov, qs, inc⟩ := s
  cases st with
  | Listening => exact absurd rfl h
  | Analyzing =>
      refine ⟨fun _ => ⟨rfl, rfl⟩, fun hc => ?_, rfl⟩
      exact FeynmanState.noConfusion hc
  | AnalyzingAnswers =>
      refine ⟨fun hc => ?_, fun _ => ⟨rfl, rfl⟩, rfl⟩
      exact FeynmanState.noConfusion hc

/-- Witness for C5 at a session in the `Analyzing` phase. -/
theorem c5_witness :
    sessionAnalyzing.state ≠ FeynmanState.Listening ∧
    ((FeynmanSession.process_segment oracleTrue sessionAnalyzing "s").1.in_between_buffer =
      sessionAnalyzing.in_between_buffer ++ ["s"]) :=
  ⟨by decide,
   ((c5_segment_routed_to_unique_buffer oracleTrue sessionAnalyzing "s" (by decide)).1 rfl).1⟩

/-- C6 (amended): `find_mentions` returns, in catalog order, exactly the
subtopics whose (lowercased) name the matcher scores STRICTLY above the
threshold; an empty catalog yields the empty list.  (Determinism is
immediate: the embedding is a pure function of catalog, matcher, text and
threshold.) -/
theorem c6_find_mentions_strict_threshold (m : String → String → Option Int)
    (l : SubTopicList) (text : String) (threshold : Int) :
    (∀ st : SubTopic, st ∈ l.find_mentions m text threshold ↔
        st ∈ l.subtopics ∧ threshold < (m text.toLower st.name.toLower).getD 0) ∧
    (l.find_mentions m text threshold).Sublist l.subtopics ∧
    (SubTopicList.new []).find_mentions m text threshold = [] := by
  refine ⟨?_, List.filter_sublist _, rfl⟩
  intro st
  simp [SubTopicList.find_mentions]

/-- C6 counterexample: a matcher scoring exactly the threshold (70): the
source's `find_mentions` excludes the subtopic, while the spec's
"at or above" reading (`specFindMentions`) includes it. -/
theorem c6_counterexample :
    (SubTopicList.new [stT]).find_mentions matcherConst70 "text" 70 = [] ∧
    specFindMentions matcherConst70 (SubTopicList.new [stT]) "text" 70 = [stT] ∧
    matcherConst70 "text".toLower stT.name.toLower = some 70 := by
  refine ⟨by decide, by decide, rfl⟩

/-- C8 (amended): `SubTopicList::new` performs no validation: for any input
list — including one with two entries whose names are equal under
case-insensitive comparison — construction succeeds and the resulting
catalog holds exactly the input entries, duplicates included. -/
theorem c8_construction_accepts_duplicates (subs : List SubTopic) (i j : Nat)
    (hi : i < subs.length) (hj : j < subs.length) (hij : i ≠ j)
    (hdup : (subs.get ⟨i, hi⟩).name.toLower = (subs.get ⟨j, hj⟩).name.toLower) :
    (SubTopicList.new subs).subtopics = subs := rfl

/-- Witness for C8's amended theorem at a two-entry duplicate list. -/
theorem c8_witness :
    (0 : Nat) ≠ 1 ∧
    (SubTopicList.new [stDup, stDup]).subtopics = [stDup, stDup] :=
  ⟨by decide,
   c8_construction_accepts_duplicates [stDup, stDup] 0 1 (by decide) (by decide)
     (by decide) rfl⟩

/-- C8 counterexample: a list with a duplicated subtopic name is accepted at
construction — no failure, no error, the catalog simply contains the name
twice — contradicting the claim that such a list is rejected. -/
theorem c8_counterexample :
    (SubTopicList.new [stDup, stDup]).subtopics.length = 2 ∧
    ((SubTopicList.new [stDup, stDup]).subtopics.map SubTopic.name) = ["TCP", "TCP"] := by
  decide

/-- C1 (the code violates the claimed ledger invariant): one analysis
response carrying two verdicts for subtopic "X" — first incomplete, then
complete — leaves "X" in BOTH `covered_subtopics` and
`incomplete_subtopics`, because the complete-verdict branch of
`process_analyzing` never removes the name from `incomplete_subtopics`. -/
theorem c1_ledger_disjointness_violated :
    mapContains ((sessionC1.process_segment oracleC1 "seg").1).covered_subtopics "X" = true ∧
    mapContains ((sessionC1.process_segment oracleC1 "seg").1).incomplete_subtopics "X" = true ∧
    mapLookup ((sessionC1.process_segment oracleC1 "seg").1).covered_subtopics "X" =
      some { name := "X", has_definition := true, has_mechanism := true, has_example := true } ∧
    mapLookup ((sessionC1.process_segment oracleC1 "seg").1).incomplete_subtopics "X" =
      some { name := "X", has_definition := false, has_mechanism := false,
             has_example := false } := by
  decide

/-- C2 (amended): when the Analyzer call (or the parsing of its response)
fails during `process_analyzing`, the invocation aborts with an error, the
phase is reset to `Listening`, `in_between_buffer` and both coverage maps
are unchanged and no command is emitted — but `pending_segments` has been
CLEARED (its contents were merged into the failed request), so that backlog
text is lost rather than retried. -/
theorem c2_failure_resets_but_clears_pending (o : Oracles) (s : FeynmanSession) (seg : String)
    (hstate : s.state = FeynmanState.Listening)
    (htemp : s.temp_context_buffer = [])
    (hdet : ((s.subtopic_list.find_mentions o.fuzzy_match seg 70).isEmpty) = false)
    (hfail : ∀ c cands, o.analyze_topic c cands = none) :
    (FeynmanSession.process_segment o s seg).1.state = FeynmanState.Listening ∧
    (FeynmanSession.process_segment o s seg).1.in_between_buffer = s.in_between_buffer ∧
    (FeynmanSession.process_segment o s seg).1.pending_segments = [] ∧
    (FeynmanSession.process_segment o s seg).1.covered_subtopics = s.covered_subtopics ∧
    (FeynmanSession.process_segment o s seg).1.incomplete_subtopics = s.incomplete_subtopics ∧
    (FeynmanSession.process_segment o s seg).2 = [] := by
  obtain ⟨st, ib, ab, tc, qq, idx, ps, pf, sl, cov, qs, inc⟩ := s
  dsimp only at hstate htemp hdet ⊢
  subst hstate
  subst htemp
  unfold FeynmanSession.process_segment
  dsimp only
  unfold FeynmanSession.process_analyzing
  simp only [hdet, Bool.false_eq_true, if_false, List.isEmpty_nil, if_true]
  rw [hfail]
  dsimp only
  simp

theorem analyze_answer_mid (o : Oracles) (s : FeynmanSession)
    (hok : ∀ q a, (o.analyze_answer q a).isSome = true)
    (h : s.current_question_idx < s.question_queue.length)
    (hbuf : s.answer_buffer.isEmpty = false)
    (hmid : s.current_question_idx + 1 < s.question_queue.length) :
    ∃ r : FeynmanSession × List Command × Bool,
      FeynmanSession.analyze_answer o s = some r ∧
      r.1.question_queue = s.question_queue ∧
      r.1.current_question_idx = s.current_question_idx + 1 ∧
      r.1.state = s.state ∧
      r.1.answer_buffer = [] ∧
      r.2.2 = true := by
  obtain ⟨b, hb⟩ := Option.isSome_iff_exists.mp
    (hok (s.question_queue.get ⟨s.current_question_idx, h⟩).question
      (joinSpace s.answer_buffer))
  unfold FeynmanSession.analyze_answer
  rw [dif_pos h]
  dsimp only
  rw [hbuf]
  simp only [Bool.false_eq_true, if_false]
  rw [hb]
  dsimp only
  simp only [apply_grading_current_question_idx, apply_grading_question_queue]
  rw [dif_pos hmid]
  refine ⟨_, rfl, ?_, ?_, ?_, rfl, rfl⟩ <;>
    simp [apply_grading_question_queue, apply_grading_current_question_idx, apply_grading_state]

theorem analyze_answer_last (o : Oracles) (s : FeynmanSession)
    (hok : ∀ q a, (o.analyze_answer q a).isSome = true)
    (h : s.current_question_idx < s.question_queue.length)
    (hbuf : s.answer_buffer.isEmpty = false)
    (hlast : s.current_question_idx + 1 = s.question_queue.length) :
    ∃ r : FeynmanSession × List Command × Bool,
      FeynmanSession.analyze_answer o s = some r ∧
      r.1.question_queue = [] ∧
      r.1.current_question_idx = 0 ∧
      r.1.state = FeynmanState.Listening ∧
      r.1.answer_buffer = [] ∧
      r.1.temp_context_buffer = s.temp_context_buffer ∧
      r.1.in_between_buffer = s.in_between_buffer ∧
      r.2.1 = [Command.SessionComplete completionMessage] ∧
      r.2.2 = true := by
  obtain ⟨b, hb⟩ := Option.isSome_iff_exists.mp
    (hok (s.question_queue.get ⟨s.current_question_idx, h⟩).question
      (joinSpace s.answer_buffer))
  unfold FeynmanSession.analyze_answer
  rw [dif_pos h]
  dsimp only
  rw [hbuf]
  simp only [Bool.false_eq_true, if_false]
  rw [hb]
  dsimp only
  simp only [apply_grading_current_question_idx, apply_grading_question_queue]
  rw [dif_neg (by omega)]
  refine ⟨_, rfl, rfl, rfl, rfl, rfl, ?_, ?_, rfl, rfl⟩ <;>
    simp [apply_grading_temp_context_buffer, apply_grading_in_between_buffer]

/-- C3 (amended): after the answer to the LAST queued question is graded
(successfully, either way), `analyze_answer` clears `question_queue`, resets
the cursor to 0 and sets the phase to `Listening` — but `in_between_buffer`
is NOT moved into `temp_context_buffer` (both are left exactly as they
were), `analyze_last_explained_context` is never consulted, and the single
emitted command is `SessionComplete` with a fixed message, not a
`SpeakText` resumption message. -/
theorem c3_queue_exhaustion_amended (o : Oracles) (s : FeynmanSession)
    (hok : ∀ q a, (o.analyze_answer q a).isSome = true)
    (h : s.current_question_idx < s.question_queue.length)
    (hlast : s.current_question_idx + 1 = s.question_queue.length)
    (hbuf : s.answer_buffer.isEmpty = false) :
    ∃ r : FeynmanSession × List Command × Bool,
      FeynmanSession.analyze_answer o s = some r ∧
      r.1.question_queue = [] ∧
      r.1.current_question_idx = 0 ∧
      r.1.state = FeynmanState.Listening ∧
      r.1.temp_context_buffer = s.temp_context_buffer ∧
      r.1.in_between_buffer = s.in_between_buffer ∧
      r.2.1 = [Command.SessionComplete completionMessage] := by
  obtain ⟨r, hr, h1, h2, h3, _, h5, h6, h7, _⟩ := analyze_answer_last o s hok h hbuf hlast
  exact ⟨r, hr, h1, h2, h3, h5, h6, h7⟩

/-- Witness for C3's amended theorem at a concrete session with backlog. -/
theorem c3_witness :
    sessionC3.current_question_idx < sessionC3.question_queue.length ∧
    ∃ r : FeynmanSession × List Command × Bool,
      FeynmanSession.analyze_answer oracleTrue sessionC3 = some r ∧
      r.1.question_queue = [] ∧
      r.1.current_question_idx = 0 ∧
      r.1.state = FeynmanState.Listening ∧
      r.1.temp_context_buffer = sessionC3.temp_context_buffer ∧
      r.1.in_between_buffer = sessionC3.in_between_buffer ∧
      r.2.1 = [Command.SessionComplete completionMessage] :=
  ⟨by decide,
   c3_queue_exhaustion_amended oracleTrue sessionC3 (fun _ _ => rfl) (by decide) rfl rfl⟩

/-- C3 counterexample: with a backlog segment "x" in `in_between_buffer`,
grading the last question leaves `temp_context_buffer` empty and
`in_between_buffer` still `["x"]`, and emits `SessionComplete` — not the
claimed migration into `temp_context_buffer` plus a `SpeakText` resumption
message from `analyze_last_explained_context`. -/
theorem c3_no_resumption_counterexample :
    (FeynmanSession.analyze_answer oracleTrue sessionC3).map
        (fun r => r.1.temp_context_buffer) = some [] ∧
    (FeynmanSession.analyze_answer oracleTrue sessionC3).map
        (fun r => r.1.in_between_buffer) = some ["x"] ∧
    (FeynmanSession.analyze_answer oracleTrue sessionC3).map (fun r => r.2.1) =
      some [Command.SessionComplete completionMessage] := by
  decide

/-- C2 witness. -/
theorem c2_witness :
    ((sessionC2.subtopic_list.find_mentions oracleFailTopic.fuzzy_match "s3" 70).isEmpty
        = false) ∧
    (FeynmanSession.process_segment oracleFailTopic sessionC2 "s3").1.state =
      FeynmanState.Listening ∧
    (FeynmanSession.process_segment oracleFailTopic sessionC2 "s3").1.pending_segments = [] :=
  ⟨by decide,
   (c2_failure_resets_but_clears_pending oracleFailTopic sessionC2 "s3" rfl rfl (by decide)
     (fun _ _ => rfl)).1,
   (c2_failure_resets_but_clears_pending oracleFailTopic sessionC2 "s3" rfl rfl (by decide)
     (fun _ _ => rfl)).2.2.1⟩

/-- C2 counterexample: before the failing call `pending_segments` is
`["s1"]`; after it, the phase is back to `Listening` but `pending_segments`
is empty — the buffered text was merged into the failed request and lost,
contradicting the claim that both buffers hold exactly their prior
contents. -/
theorem c2_pending_lost_counterexample :
    sessionC2.pending_segments = ["s1"] ∧
    (FeynmanSession.process_segment oracleFailTopic sessionC2 "s3").1.state =
      FeynmanState.Listening ∧
    (FeynmanSession.process_segment oracleFailTopic sessionC2 "s3").1.pending_segments ≠
      sessionC2.pending_segments := by
  decide

theorem deliver_round_mid (o : Oracles) (ans : String) (s : FeynmanSession)
    (hok : ∀ q a, (o.analyze_answer q a).isSome = true)
    (hmid : s.current_question_idx + 1 < s.question_queue.length) :
    (deliver_round o ans s).question_queue = s.question_queue ∧
    (deliver_round o ans s).current_question_idx = s.current_question_idx + 1 ∧
    (deliver_round o ans s).state = s.state := by
  obtain ⟨r, hr, hq, hidx, hst, _, _⟩ :=
    analyze_answer_mid o { s with answer_buffer := s.answer_buffer ++ [ans] } hok
      (show s.current_question_idx < s.question_queue.length by omega)
      (by simp) hmid
  unfold deliver_round
  rw [hr]
  exact ⟨hq, hidx, hst⟩

theorem deliver_round_last (o : Oracles) (ans : String) (s : FeynmanSession)
    (hok : ∀ q a, (o.analyze_answer q a).isSome = true)
    (hlast : s.current_question_idx + 1 = s.question_queue.length) :
    (deliver_round o ans s).question_queue = [] ∧
    (deliver_round o ans s).current_question_idx = 0 ∧
    (deliver_round o ans s).state = FeynmanState.Listening := by
  obtain ⟨r, hr, hq, hidx, hst, _, _, _, _⟩ :=
    analyze_answer_last o { s with answer_buffer := s.answer_buffer ++ [ans] } hok
      (show s.current_question_idx < s.question_queue.length by omega)
      (by simp) hlast
  unfold deliver_round
  rw [hr]
  exact ⟨hq, hidx, hst⟩

theorem deliver_rounds_terminate (o : Oracles) (ans : String)
    (hok : ∀ q a, (o.analyze_answer q a).isSome = true) :
    ∀ k s, s.current_question_idx + (k + 1) = s.question_queue.length →
      (deliver_rounds o ans (k + 1) s).question_queue = [] ∧
      (deliver_rounds o ans (k + 1) s).current_question_idx = 0 ∧
      (deliver_rounds o ans (k + 1) s).state = FeynmanState.Listening := by
  intro k
  induction k with
  | zero =>
      intro s hs
      have := deliver_round_last o ans s hok (by omega)
      simpa [deliver_rounds] using this
  | succ k ih =>
      intro s hs
      obtain ⟨hq, hidx, hst⟩ := deliver_round_mid o ans s hok (by omega)
      have hnext : (deliver_round o ans s).current_question_idx + (k + 1) =
          (deliver_round o ans s).question_queue.length := by
        rw [hidx, hq]; omega
      have h2 := ih (deliver_round o ans s) hnext
      simpa [deliver_rounds] using h2

/-- C7: with a grader that always completes (with any boolean, possibly
always false), each mid-queue invocation of `analyze_answer` advances the
cursor by exactly one, and after `question_queue.length` rounds the queue
is cleared, the cursor is reset to 0 and the phase is back to `Listening`:
question delivery terminates. -/
theorem c7_question_delivery_terminates (o : Oracles) (ans : String) (s : FeynmanSession)
    (hok : ∀ q a, (o.analyze_answer q a).isSome = true)
    (hidx : s.current_question_idx = 0)
    (hne : s.question_queue ≠ []) :
    (∀ t : FeynmanSession, t.current_question_idx + 1 < t.question_queue.length →
        (deliver_round o ans t).current_question_idx = t.current_question_idx + 1) ∧
    (deliver_rounds o ans s.question_queue.length s).question_queue = [] ∧
    (deliver_rounds o ans s.question_queue.length s).current_question_idx = 0 ∧
    (deliver_rounds o ans s.question_queue.length s).state = FeynmanState.Listening := by
  have hpos : 0 < s.question_queue.length := List.length_pos.mpr hne
  have hlen : s.question_queue.length = (s.question_queue.length - 1) + 1 := by omega
  refine ⟨fun t ht => (deliver_round_mid o ans t hok ht).2.1, ?_⟩
  rw [hlen]
  exact deliver_rounds_terminate o ans hok (s.question_queue.length - 1) s (by omega)

/-- Witness for C7: two questions, a grader that always answers `false`. -/
theorem c7_witness :
    sessionC4.current_question_idx = 0 ∧
    (deliver_rounds oracleFalse "a" sessionC4.question_queue.length sessionC4).question_queue
      = [] ∧
    (deliver_rounds oracleFalse "a" sessionC4.question_queue.length
      sessionC4).current_question_idx = 0 ∧
    (deliver_rounds oracleFalse "a" sessionC4.question_queue.length sessionC4).state =
      FeynmanState.Listening :=
  ⟨rfl,
   (c7_question_delivery_terminates oracleFalse "a" sessionC4 (fun _ _ => rfl) rfl
     (by decide)).2⟩

theorem setSubtopicField_new_not_complete (name field : String) :
    ((setSubtopicField (SubTopic.new name) field true).has_definition &&
     (setSubtopicField (SubTopic.new name) field true).has_mechanism &&
     (setSubtopicField (SubTopic.new name) field true).has_example) = false := by
  unfold setSubtopicField SubTopic.new
  split <;> rfl

theorem apply_grading_unknown (s : FeynmanSession) (q : QuestionForSubtopic)
    (hunknown : mapLookup s.incomplete_subtopics q.subtopic = none) :
    s.apply_grading q true =
      { s with incomplete_subtopics :=
          (mapInsert s.incomplete_subtopics q.subtopic
            (setSubtopicField (SubTopic.new q.subtopic) q.field true)) } := by
  have hc : FeynmanSession.is_subtopic_complete
      { s with incomplete_subtopics :=
          (mapInsert s.incomplete_subtopics q.subtopic
            (setSubtopicField (SubTopic.new q.subtopic) q.field true)) } q.subtopic = false := by
    unfold FeynmanSession.is_subtopic_complete
    dsimp only
    rw [mapLookup_insert]
    exact setSubtopicField_new_not_complete q.subtopic q.field
  unfold FeynmanSession.apply_grading FeynmanSession.update_subtopic_field
  dsimp only
  rw [hunknown]
  dsimp only
  rw [if_pos rfl]
  rw [if_neg (by simp [hc])]

/-- C9 (amended): a question referencing a subtopic absent from both
coverage maps is not fatal — `analyze_answer` still succeeds and the queue
advances — but the question is NOT dropped: a correct answer makes
`update_subtopic_field` create a fresh entry for the unknown name in
`incomplete_subtopics` (with the graded field set), while
`covered_subtopics` stays unchanged. -/
theorem c9_unknown_subtopic_not_dropped (o : Oracles) (s : FeynmanSession)
    (h : s.current_question_idx < s.question_queue.length)
    (hbuf : s.answer_buffer.isEmpty = false)
    (hcov : mapLookup s.covered_subtopics
        (s.question_queue.get ⟨s.current_question_idx, h⟩).subtopic = none)
    (hinc : mapLookup s.incomplete_subtopics
        (s.question_queue.get ⟨s.current_question_idx, h⟩).subtopic = none)
    (hgrade : o.analyze_answer (s.question_queue.get ⟨s.current_question_idx, h⟩).question
        (joinSpace s.answer_buffer) = some true) :
    ∃ r : FeynmanSession × List Command × Bool,
      FeynmanSession.analyze_answer o s = some r ∧
      r.2.2 = true ∧
      mapContains r.1.incomplete_subtopics
        (s.question_queue.get ⟨s.current_question_idx, h⟩).subtopic = true ∧
      r.1.covered_subtopics = s.covered_subtopics := by
  unfold FeynmanSession.analyze_answer
  rw [dif_pos h]
  dsimp only
  rw [hbuf]
  simp only [Bool.false_eq_true, if_false]
  rw [hgrade]
  dsimp only
  rw [apply_grading_unknown s _ hinc]
  dsimp only
  split
  · exact ⟨_, rfl, rfl, by simpa using mapContains_insert _ _ _, rfl⟩
  · exact ⟨_, rfl, rfl, by simpa using mapContains_insert _ _ _, rfl⟩

/-- Witness for C9 at a session whose current question references the
unknown subtopic "X". -/
theorem c9_witness :
    mapLookup sessionC9.incomplete_subtopics "X" = none ∧
    mapLookup sessionC9.covered_subtopics "X" = none ∧
    ∃ r : FeynmanSession × List Command × Bool,
      FeynmanSession.analyze_answer oracleTrue sessionC9 = some r ∧
      r.2.2 = true ∧
      mapContains r.1.incomplete_subtopics
        (sessionC9.question_queue.get ⟨sessionC9.current_question_idx, by decide⟩).subtopic
        = true ∧
      r.1.covered_subtopics = sessionC9.covered_subtopics :=
  ⟨rfl, rfl,
   c9_unknown_subtopic_not_dropped oracleTrue sessionC9 (by decide) rfl rfl rfl rfl⟩

/-- C9 counterexample: grading (correctly) a question about the unknown
subtopic "X" CREATES a new entry for "X" in `incomplete_subtopics`,
contradicting the claim that the coverage maps gain no entry for the
unknown name. -/
theorem c9_counterexample :
    mapContains sessionC9.incomplete_subtopics "X" = false ∧
    mapContains sessionC9.covered_subtopics "X" = false ∧
    (FeynmanSession.analyze_answer oracleTrue sessionC9).map
        (fun r => mapContains r.1.incomplete_subtopics "X") = some true := by
  decide
